import Mathlib

/-!
Verification development for the AgentBase memory-service rule-extraction
pipeline (`apps/memory-service/src/memory_processor.py` and
`apps/memory-service/src/api_keys.py`), as a shallow embedding in Lean.

Raw conversation turns are embedded as records with the three fields the
code actually reads (`role`, `content`, `display`), each optional, standing
for a Python dict that may or may not carry the key with a string value.
Python string operations are embedded by the corresponding Lean `String`
operations; Python's `str(n)` for a natural index is embedded by an explicit
decimal rendering `natRepr`.  `json.loads` is embedded by an executable
recursive-descent JSON parser `jsonParse` returning `Option Json`, where
`none` stands for `json.JSONDecodeError`; JSON numbers are represented
exactly as scaled decimals (`Json.num m s` denotes `m / 10^s`, so `0.9` is
`Json.num 9 1`).  The external service clients (mem0, Anthropic, Supabase)
are embedded as oracle parameters: the mem0 gateway as an optional
environment carrying the search response, the LLM as a function from the
assembled prompt to the list of response content-block texts, and the
Supabase key table as a function from provider to either a transport
failure or the (already ordered, limited) list of matching `api_key`
column values.
-/

set_option autoImplicit false

namespace AgentBase

/-- A raw conversation turn record as read by the processor: a Python dict
of which only the keys `role`, `content` and `display` are consulted; each
field is `none` when the key is absent. -/
structure Msg where
  role : Option String
  content : Option String
  display : Option String
deriving DecidableEq, Repr

/-- A normalized mem0 turn, the `{"role": ..., "content": ...}` dict built
by `_transform_messages_for_mem0`. -/
structure Turn where
  role : String
  content : String
deriving DecidableEq, Repr

/-- Python `str.strip()` whitespace (the ASCII whitespace characters). -/
def isPyWs (c : Char) : Bool :=
  c = ' ' || c = '\t' || c = '\n' || c = '\r' || c = '\x0b' || c = '\x0c'

/-- Embedding of Python `str.strip()`: drop whitespace from both ends. -/
def pyStrip (s : String) : String :=
  ⟨((s.data.dropWhile isPyWs).reverse.dropWhile isPyWs).reverse⟩

/-- Decide whether the first character list is a prefix of the second. -/
def listPrefixOf (pre s : List Char) : Bool :=
  match pre, s with
  | [], _ => true
  | _, [] => false
  | a :: as, b :: bs => if a = b then listPrefixOf as bs else false

/-- Embedding of Python `str.startswith(pre)`. -/
def pyStartsWith (s pre : String) : Bool :=
  listPrefixOf pre.data s.data

/-- Embedding of Python `str.endswith(suf)`. -/
def pyEndsWith (s suf : String) : Bool :=
  listPrefixOf suf.data.reverse s.data.reverse

/-- Embedding of the Python slice `s[n:]`. -/
def pyDrop (s : String) (n : Nat) : String :=
  ⟨s.data.drop n⟩

/-- Embedding of the Python slice `s[:-n]` (for `n` at most the length). -/
def pyDropRight (s : String) (n : Nat) : String :=
  ⟨s.data.take (s.data.length - n)⟩

/-- Embedding of Python `str.upper()` on ASCII text. -/
def pyUpper (s : String) : String :=
  ⟨s.data.map Char.toUpper⟩

/-- Embedding of `msg.get("content") or msg.get("display", "")`: Python
`or` falls through on a falsy (absent or empty) `content` value to the
`display` value, which defaults to the empty string when absent. -/
def resolveContent (m : Msg) : String :=
  match m.content with
  | some c => if c = "" then m.display.getD "" else c
  | none => m.display.getD ""

/-- Embedding of `SharedMemoryProcessor._transform_messages_for_mem0`:
walk the raw turns in order, resolve role (`msg.get("role", "user")`) and
body text, and append a normalized turn exactly when the resolved text is
truthy (non-empty). -/
def transformMessagesForMem0 : List Msg → List Turn
  | [] => []
  | m :: ms =>
    let role := m.role.getD "user"
    let content := resolveContent m
    if content = "" then transformMessagesForMem0 ms
    else ⟨role, content⟩ :: transformMessagesForMem0 ms

/-- Embedding of Python `sep.join(lines)`. -/
def joinSep (sep : String) : List String → String
  | [] => ""
  | [x] => x
  | x :: y :: xs => x ++ sep ++ joinSep sep (y :: xs)

/-- The line built for one raw turn by `_format_conversation`:
`f"{role.upper()}: {content}"` with `msg.get("role", "unknown")`. -/
def formatLine (m : Msg) : String :=
  pyUpper (m.role.getD "unknown") ++ ": " ++ resolveContent m

/-- The list of lines accumulated by the loop in `_format_conversation`. -/
def formatLines : List Msg → List String
  | [] => []
  | m :: ms => formatLine m :: formatLines ms

/-- Embedding of `SharedMemoryProcessor._format_conversation`: one line per
raw turn, joined with a blank line (`"\n\n".join(lines)`). -/
def formatConversation (msgs : List Msg) : String :=
  joinSep "\n\n" (formatLines msgs)

/-- One mem0 search-result entry; `memory` is the value of the `"memory"`
key, `none` when the key is absent (`memory.get("memory", "")`). -/
structure Mem0Item where
  memory : Option String
deriving DecidableEq, Repr

/-- A mem0 search response dict; `results` is the value under the
`"results"` key, `none` when the dict is empty or lacks the key. -/
structure SearchResp where
  results : Option (List Mem0Item)
deriving DecidableEq, Repr

/-- Decimal digit character for a digit value, embedding the rendering of
one digit of Python `str(idx)`. -/
def digitChar : Nat → Char
  | 0 => '0'
  | 1 => '1'
  | 2 => '2'
  | 3 => '3'
  | 4 => '4'
  | 5 => '5'
  | 6 => '6'
  | 7 => '7'
  | 8 => '8'
  | _ => '9'

/-- Fueled digit expansion of a natural number, most significant first. -/
def natReprAux : Nat → Nat → List Char
  | 0, _ => []
  | fuel + 1, n =>
    if n < 10 then [digitChar n]
    else natReprAux fuel (n / 10) ++ [digitChar (n % 10)]

/-- Embedding of Python `str(n)` for a non-negative integer. -/
def natRepr (n : Nat) : String :=
  ⟨natReprAux (n + 1) n⟩

/-- The numbered lines built by `_format_memories` from
`enumerate(similar_memories["results"], 1)`: `f"{idx}. {memory_text}"`. -/
def numberMemories (idx : Nat) : List Mem0Item → List String
  | [] => []
  | it :: rest => (natRepr idx ++ ". " ++ it.memory.getD "") :: numberMemories (idx + 1) rest

/-- Embedding of `SharedMemoryProcessor._format_memories`: the fallback
string when the response dict is falsy or lacks `"results"`, otherwise the
newline-join of the numbered lines, falling back again when no lines were
produced. -/
def formatMemories (sm : SearchResp) : String :=
  match sm.results with
  | none => "No similar memories found."
  | some items =>
    let lines := numberMemories 1 items
    if lines = [] then "No similar memories found." else joinSep "\n" lines

/-- JSON values as produced by `json.loads`.  A number literal with `s`
fractional digits and combined digit string denoting `m` is represented
exactly as `num m s`, meaning `m / 10 ^ s`; so `0.9` parses to `num 9 1`. -/
inductive Json where
  | null
  | bool (b : Bool)
  | num (m : Int) (s : Nat)
  | str (s : String)
  | arr (elts : List Json)
  | obj (fields : List (String × Json))
deriving Repr

/-- The opening-brace character, written by code point. -/
def lbrace : Char := Char.ofNat 123

/-- The closing-brace character, written by code point. -/
def rbrace : Char := Char.ofNat 125

/-- JSON insignificant whitespace. -/
def isJsonWs (c : Char) : Bool :=
  c = ' ' || c = '\n' || c = '\t' || c = '\r'

/-- Skip insignificant whitespace. -/
def skipWs (cs : List Char) : List Char :=
  cs.dropWhile isJsonWs

/-- Single-character JSON string escapes (the `\uXXXX` form is not needed
for any input considered here and is rejected). -/
def escChar (e : Char) : Option Char :=
  if e = 'n' then some '\n'
  else if e = 't' then some '\t'
  else if e = 'r' then some '\r'
  else if e = '"' then some e
  else if e = '\\' then some e
  else if e = '/' then some e
  else if e = 'b' then some (Char.ofNat 8)
  else if e = 'f' then some (Char.ofNat 12)
  else none

/-- Parse the body of a JSON string after the opening quote, returning the
decoded characters and the remainder after the closing quote. -/
def parseStringBody : List Char → Option (List Char × List Char)
  | [] => none
  | '"' :: rest => some ([], rest)
  | '\\' :: rest =>
    match rest with
    | [] => none
    | e :: rest2 =>
      match escChar e, parseStringBody rest2 with
      | some ec, some (s, r) => some (ec :: s, r)
      | _, _ => none
  | c :: rest =>
    match parseStringBody rest with
    | none => none
    | some (s, r) => some (c :: s, r)

/-- Numeric value of a decimal digit character. -/
def digitVal (c : Char) : Nat := c.toNat - 48

/-- Accumulate a digit string into a natural number. -/
def digitsToNat : List Char → Nat → Nat
  | [], acc => acc
  | c :: cs, acc => digitsToNat cs (acc * 10 + digitVal c)

/-- Parse the digits of a JSON number after the sign (integer digits,
optional fractional digits; exponent forms are not needed here and are
rejected). -/
def parseNumberCore (neg : Bool) (cs1 : List Char) : Option (Json × List Char) :=
  let intDigits := cs1.takeWhile Char.isDigit
  let rest1 := cs1.dropWhile Char.isDigit
  if intDigits = [] then none
  else
    match rest1 with
    | '.' :: r2 =>
      let fracDigits := r2.takeWhile Char.isDigit
      let rest2 := r2.dropWhile Char.isDigit
      if fracDigits = [] then none
      else
        match rest2 with
        | 'e' :: _ => none
        | 'E' :: _ => none
        | _ =>
          let m := digitsToNat (intDigits ++ fracDigits) 0
          some (Json.num (if neg then -(m : Int) else (m : Int)) fracDigits.length, rest2)
    | 'e' :: _ => none
    | 'E' :: _ => none
    | _ =>
      let m := digitsToNat intDigits 0
      some (Json.num (if neg then -(m : Int) else (m : Int)) 0, rest1)

/-- Parse a JSON number, handling an optional leading minus sign. -/
def parseNumber (cs : List Char) : Option (Json × List Char) :=
  match cs with
  | '-' :: r => parseNumberCore true r
  | _ => parseNumberCore false cs

/-- The mode of one step of the recursive-descent JSON parser: parsing a
value, the items of a (so far non-empty) array, or the members of a (so
far non-empty) object. -/
inductive PMode where
  | value
  | arrayRest (acc : List Json)
  | objectRest (acc : List (String × Json))

/-- Fueled recursive-descent parse.  In `value` mode, parse one JSON value
and return it with the unconsumed remainder; the other modes continue a
partially parsed array or object. -/
def parseStep : Nat → PMode → List Char → Option (Json × List Char)
  | 0, _, _ => none
  | fuel + 1, PMode.value, cs =>
    match skipWs cs with
    | [] => none
    | c :: rest =>
      if c = '"' then
        match parseStringBody rest with
        | none => none
        | some (s, r) => some (Json.str ⟨s⟩, r)
      else if c = '[' then
        match skipWs rest with
        | ']' :: r => some (Json.arr [], r)
        | w => parseStep fuel (PMode.arrayRest []) w
      else if c = lbrace then
        match skipWs rest with
        | [] => none
        | c2 :: r2 =>
          if c2 = rbrace then some (Json.obj [], r2)
          else parseStep fuel (PMode.objectRest []) (c2 :: r2)
      else if c = 't' then
        match rest with
        | 'r' :: 'u' :: 'e' :: r => some (Json.bool true, r)
        | _ => none
      else if c = 'f' then
        match rest with
        | 'a' :: 'l' :: 's' :: 'e' :: r => some (Json.bool false, r)
        | _ => none
      else if c = 'n' then
        match rest with
        | 'u' :: 'l' :: 'l' :: r => some (Json.null, r)
        | _ => none
      else if c = '-' || c.isDigit then parseNumber (c :: rest)
      else none
  | fuel + 1, PMode.arrayRest acc, cs =>
    match parseStep fuel PMode.value cs with
    | none => none
    | some (v, r) =>
      match skipWs r with
      | ',' :: r2 => parseStep fuel (PMode.arrayRest (acc ++ [v])) r2
      | ']' :: r2 => some (Json.arr (acc ++ [v]), r2)
      | _ => none
  | fuel + 1, PMode.objectRest acc, cs =>
    match skipWs cs with
    | [] => none
    | c :: rest =>
      if c = '"' then
        match parseStringBody rest with
        | none => none
        | some (k, r) =>
          match skipWs r with
          | ':' :: r2 =>
            match parseStep fuel PMode.value r2 with
            | none => none
            | some (v, r3) =>
              match skipWs r3 with
              | [] => none
              | ',' :: r4 => parseStep fuel (PMode.objectRest (acc ++ [(⟨k⟩, v)])) r4
              | c2 :: r4 =>
                if c2 = rbrace then some (Json.obj (acc ++ [(⟨k⟩, v)]), r4) else none
          | _ => none
      else none

/-- Embedding of `json.loads`: parse one JSON value and require that only
whitespace remains; `none` stands for `json.JSONDecodeError`. -/
def jsonParse (s : String) : Option Json :=
  match parseStep (2 * s.data.length + 2) PMode.value s.data with
  | none => none
  | some (v, rest) => if skipWs rest = [] then some v else none

/-- Embedding of the markdown code-fence stripping in
`_extract_rules_with_context`: trim, remove a leading ```` ```json ````
(7 characters) or else a leading ```` ``` ```` (3 characters), remove a
trailing ```` ``` ```` (3 characters), trim again. -/
def stripFences (content : String) : String :=
  let c := pyStrip content
  let c :=
    if pyStartsWith c "```json" then pyDrop c 7
    else if pyStartsWith c "```" then pyDrop c 3
    else c
  let c := if pyEndsWith c "```" then pyDropRight c 3 else c
  pyStrip c

/-- Embedding of the response-handling tail of `_extract_rules_with_context`:
take the first content block's text (the literal `"[]"` when there is no
content block), strip fences, `json.loads` it, and return the parsed array,
with the `JSONDecodeError` handler and the not-a-list check both yielding
the empty list.  The Python exception is modelled by `jsonParse` returning
`none`; since both failure modes are mapped to `[]`, the embedded function
is total — the caller can never observe an exception. -/
def parseLlmRules (blocks : List String) : List Json :=
  let content :=
    match blocks with
    | [] => "[]"
    | b :: _ => b
  match jsonParse (stripFences content) with
  | none => []
  | some (Json.arr elts) => elts
  | some _ => []

/-- Embedding of the placeholder substitution in
`_extract_rules_with_context`: Python `str.replace` of each of the two
markers by the corresponding text.  The instruction template itself is
carried as a parameter; no claim depends on its contents. -/
def buildPrompt (template conversationText mem0Context : String) : String :=
  (template.replace "\x7bconversation_text\x7d" conversationText).replace
    "\x7bmem0_context\x7d" mem0Context

/-- Embedding of `_extract_rules_with_context`, with the Anthropic client
abstracted as an oracle `llm` from the full prompt to the response's
content-block texts. -/
def extractRulesWithContext (llm : String → List String) (template : String)
    (msgs : List Msg) (similar : SearchResp) : List Json :=
  parseLlmRules
    (llm (buildPrompt template (formatConversation msgs) (formatMemories similar)))

/-- The environment behind an enabled mem0 gateway, reduced to the
response its `search` call returns for this conversation. -/
structure MemEnv where
  searchResp : SearchResp

/-- A call made on the mem0 gateway, recorded with its payload. -/
inductive GCall where
  | add (messages : List Turn) (userId : String)
  | search (query : String) (userId : String) (lim : Nat)
deriving DecidableEq, Repr

/-- The fixed mem0 search query of `process_chat_history`. -/
def searchQueryText : String :=
  "coding conventions, repeated corrections, workflow preferences"

/-- The dictionary returned by `process_chat_history`. -/
structure ProcResult where
  chat_history_id : String
  rules : List Json
  similar_memory_count : Nat

/-- Embedding of `SharedMemoryProcessor.process_chat_history`: when the
gateway is enabled, the normalized turns are added, the fixed query is
searched (its response replacing the initial `{"results": []}` value), and
the result counts `len(similar_memories.get("results", []))`; when
`self.memory is None` both gateway operations are skipped.  The second
component records the gateway calls made. -/
def processChatHistory (mem : Option MemEnv) (llm : String → List String)
    (template chatId : String) (msgs : List Msg) (userId : String) :
    ProcResult × List GCall :=
  match mem with
  | some env =>
    let mem0Messages := transformMessagesForMem0 msgs
    let similar := env.searchResp
    let rules := extractRulesWithContext llm template msgs similar
    (⟨chatId, rules, (similar.results.getD []).length⟩,
      [GCall.add mem0Messages userId, GCall.search searchQueryText userId 10])
  | none =>
    let similar : SearchResp := ⟨some []⟩
    let rules := extractRulesWithContext llm template msgs similar
    (⟨chatId, rules, (similar.results.getD []).length⟩, [])

/-- Embedding of `SharedMemoryProcessor.batch_process_histories`: walk the
ids in order, fetch `messages_by_id.get(chat_id, [])`, skip the id when the
list is falsy, and otherwise append the processing result. -/
def batchProcessHistories (mem : Option MemEnv) (llm : String → List String)
    (template userId : String) (messagesById : String → Option (List Msg)) :
    List String → List ProcResult
  | [] => []
  | chatId :: rest =>
    let msgs := (messagesById chatId).getD []
    if msgs.isEmpty then
      batchProcessHistories mem llm template userId messagesById rest
    else
      (processChatHistory mem llm template chatId msgs userId).1 ::
        batchProcessHistories mem llm template userId messagesById rest

/-- The process environment for credential lookup: `os.getenv`, `none`
when the variable is unset. -/
def EnvSource : Type := String → Option String

/-- The Supabase `llm_api_keys` query, abstracted per provider: either a
transport/query failure (the raised exception) or the `api_key` column
values of the returned rows, already filtered to the provider and
`is_active`, ordered by `(is_default desc, created_at desc)` and limited
to one row. -/
def DbSource : Type := String → Except Unit (List String)

/-- The `_cache` dict of `APIKeyManager`, as an association list in which
the most recent insertion shadows older ones (Python dict assignment). -/
structure KeyCache where
  cache : List (String × String)
deriving DecidableEq, Repr

/-- Dictionary lookup in the cache. -/
def lookupKey : List (String × String) → String → Option String
  | [], _ => none
  | (k, v) :: rest, key => if k = key then some v else lookupKey rest key

/-- Dictionary assignment `self._cache[key] = value`. -/
def insertKey (c : List (String × String)) (k v : String) : List (String × String) :=
  (k, v) :: c

/-- Embedding of the f-string `f"{provider}:{env_var_name}"`; Python
renders an absent hint as the string `"None"`. -/
def cacheKey (provider : String) (envVarName : Option String) : String :=
  provider ++ ":" ++ envVarName.getD "None"

/-- The environment-variable step of `get_api_key`: a hint that is absent
or empty is not consulted (`if env_var_name:`), and a variable that is
unset or holds the empty string yields nothing (`if env_value:`). -/
def envLookup (env : EnvSource) (envVarName : Option String) : Option String :=
  match envVarName with
  | none => none
  | some n =>
    if n = "" then none
    else
      match env n with
      | none => none
      | some v => if v = "" then none else some v

/-- Embedding of `APIKeyManager.get_api_key`: cache, then environment,
then datastore, a failure of which is caught and treated as absence.  The
result carries the returned key, the updated cache, and whether the
datastore was queried. -/
def getApiKey (env : EnvSource) (db : DbSource) (provider : String)
    (envVarName : Option String) (st : KeyCache) :
    Option String × KeyCache × Bool :=
  let key := cacheKey provider envVarName
  match lookupKey st.cache key with
  | some v => (some v, st, false)
  | none =>
    match envLookup env envVarName with
    | some v => (some v, ⟨insertKey st.cache key v⟩, false)
    | none =>
      match db provider with
      | Except.error _ => (none, st, true)
      | Except.ok [] => (none, st, true)
      | Except.ok (k0 :: _) => (some k0, ⟨insertKey st.cache key k0⟩, true)

/-- Modelled from the spec words of claim C4, for comparison with the code:
like `transformMessagesForMem0`, but dropping every turn whose resolved
text is empty after trimming. -/
def transformMessagesForMem0Spec : List Msg → List Turn
  | [] => []
  | m :: ms =>
    let role := m.role.getD "user"
    let content := resolveContent m
    if pyStrip content = "" then transformMessagesForMem0Spec ms
    else ⟨role, content⟩ :: transformMessagesForMem0Spec ms

/-- Modelled from the spec words of claim C5, for comparison with the code:
one line per normalized (kept) turn, the role upper-cased with the
normalizer's `"user"` default, turns separated by a blank line. -/
def formatConversationSpec (msgs : List Msg) : String :=
  joinSep "\n\n"
    ((transformMessagesForMem0 msgs).map fun t => pyUpper t.role ++ ": " ++ t.content)

/-- Split a character list at every newline; the segments between
newlines, in order (the empty list of characters on each side of a
newline with nothing else next to it). -/
def splitOnNl : List Char → List (List Char)
  | [] => [[]]
  | c :: cs =>
    match splitOnNl cs with
    | [] => [[]]
    | h :: t => if c = '\n' then [] :: h :: t else (c :: h) :: t

/-- The lines of a string: the segments between newline characters. -/
def strLines (s : String) : List String :=
  (splitOnNl s.data).map fun l => ⟨l⟩

/-- A process environment with no variables set. -/
def envUnset : EnvSource := fun _ => none

/-- A process environment in which every variable holds `"sk-env"`. -/
def envTest : EnvSource := fun _ => some "sk-env"

/-- A datastore with no matching credential row for any provider. -/
def dbNoRows : DbSource := fun _ => Except.ok []

/-- A datastore whose best matching row carries an empty `api_key`. -/
def dbEmptyKeyRow : DbSource := fun _ => Except.ok [""]

/-- A datastore whose every query raises a transport failure. -/
def dbDown : DbSource := fun _ => Except.error ()

/-- An LLM stub returning a response with no content blocks. -/
def llmSilent : String → List String := fun _ => []

/-- A demonstration raw turn with role and content present. -/
def demoMsg : Msg := ⟨some "user", some "hi", none⟩

/-- Demonstration batch input: conversation `"a"` has one turn,
every other id maps to an empty turn list. -/
def demoMessagesById : String → Option (List Msg) :=
  fun chatId => if chatId = "a" then some [demoMsg] else some []

theorem data_app : ∀ a b : String, (a ++ b).data = a.data ++ b.data
  | ⟨_⟩, ⟨_⟩ => rfl

theorem mk_data (s : String) : String.mk s.data = s := rfl

theorem splitOnNl_ne_nil (cs : List Char) : splitOnNl cs ≠ [] := by
  induction cs with
  | nil => simp [splitOnNl]
  | cons c cs ih =>
    cases h : splitOnNl cs with
    | nil => exact absurd h ih
    | cons hd tl =>
      simp only [splitOnNl, h]
      split <;> simp

theorem splitOnNl_of_not_mem (cs : List Char) (h : '\n' ∉ cs) : splitOnNl cs = [cs] := by
  induction cs with
  | nil => rfl
  | cons c cs ih =>
    have hc : ¬ c = '\n' := fun e => h (e ▸ List.mem_cons_self c cs)
    have hcs : '\n' ∉ cs := fun m => h (List.mem_cons_of_mem c m)
    simp [splitOnNl, ih hcs, hc]

theorem splitOnNl_append (a b : List Char) (ha : '\n' ∉ a) :
    splitOnNl (a ++ '\n' :: b) = a :: splitOnNl b := by
  induction a with
  | nil =>
    cases h : splitOnNl b with
    | nil => exact absurd h (splitOnNl_ne_nil b)
    | cons hd tl => simp [splitOnNl, h]
  | cons c cs ih =>
    have hc : ¬ c = '\n' := fun e => ha (e ▸ List.mem_cons_self c cs)
    have hcs : '\n' ∉ cs := fun m => ha (List.mem_cons_of_mem c m)
    simp [splitOnNl, ih hcs, hc]

theorem strLines_joinSep : ∀ ps : List String, ps ≠ [] →
    (∀ p ∈ ps, '\n' ∉ p.data) → strLines (joinSep "\n" ps) = ps
  | [], h, _ => absurd rfl h
  | [x], _, hnl => by
    have hx : '\n' ∉ x.data := hnl x (List.mem_singleton.mpr rfl)
    simp [joinSep, strLines, splitOnNl_of_not_mem x.data hx]
  | x :: y :: t, _, hnl => by
    have hx : '\n' ∉ x.data := hnl x (List.mem_cons_self x _)
    have ih := strLines_joinSep (y :: t) (List.cons_ne_nil y t)
      (fun p hp => hnl p (List.mem_cons_of_mem x hp))
    have hdata : (joinSep "\n" (x :: y :: t)).data
        = x.data ++ '\n' :: (joinSep "\n" (y :: t)).data := by
      show (x ++ "\n" ++ joinSep "\n" (y :: t)).data = _
      rw [data_app, data_app]
      simp
    unfold strLines
    rw [hdata, splitOnNl_append _ _ hx]
    simpa [strLines] using ih

theorem digitChar_ne_nl (d : Nat) : digitChar d ≠ '\n' := by
  unfold digitChar
  split <;> decide

theorem natReprAux_no_nl (fuel : Nat) : ∀ n : Nat, '\n' ∉ natReprAux fuel n := by
  induction fuel with
  | zero => intro n; simp [natReprAux]
  | succ f ih =>
    intro n
    unfold natReprAux
    split
    · intro hm
      rcases List.mem_singleton.mp hm with h
      exact digitChar_ne_nl n h.symm
    · intro hm
      rcases List.mem_append.mp hm with h | h
      · exact ih (n / 10) h
      · rcases List.mem_singleton.mp h with h2
        exact digitChar_ne_nl (n % 10) h2.symm

theorem natRepr_no_nl (n : Nat) : '\n' ∉ (natRepr n).data :=
  natReprAux_no_nl (n + 1) n

theorem numberMemories_length (k : Nat) (items : List Mem0Item) :
    (numberMemories k items).length = items.length := by
  induction items generalizing k with
  | nil => rfl
  | cons it rest ih => simp [numberMemories, ih]

theorem numberMemories_no_nl (k : Nat) (items : List Mem0Item)
    (h : ∀ it ∈ items, '\n' ∉ (it.memory.getD "").data) :
    ∀ p ∈ numberMemories k items, '\n' ∉ p.data := by
  induction items generalizing k with
  | nil => intro p hp; simp [numberMemories] at hp
  | cons it rest ih =>
    intro p hp
    rcases List.mem_cons.mp hp with hp | hp
    · subst hp
      rw [data_app, data_app]
      intro hm
      rcases List.mem_append.mp hm with hm | hm
      · rcases List.mem_append.mp hm with hm | hm
        · exact natRepr_no_nl k hm
        · simp at hm
      · exact h it (List.mem_cons_self it rest) hm
    · exact ih (k + 1) (fun x hx => h x (List.mem_cons_of_mem it hx)) p hp

theorem numberMemories_get? (k : Nat) (items : List Mem0Item) (i : Nat) (it : Mem0Item)
    (h : items.get? i = some it) :
    (numberMemories k items).get? i = some (natRepr (k + i) ++ ". " ++ it.memory.getD "") := by
  induction items generalizing k i with
  | nil => simp at h
  | cons x rest ih =>
    cases i with
    | zero =>
      simp only [List.get?] at h
      cases h
      simp [numberMemories]
    | succ n =>
      simp only [List.get?] at h
      have h2 := ih (k + 1) n h
      have harith : k + 1 + n = k + (n + 1) := by omega
      rw [harith] at h2
      simpa [numberMemories] using h2

theorem getApiKey_eq (env : EnvSource) (db : DbSource) (p : String)
    (hint : Option String) (st : KeyCache) :
    getApiKey env db p hint st =
      match lookupKey st.cache (cacheKey p hint) with
      | some v => (some v, st, false)
      | none =>
        match envLookup env hint with
        | some v => (some v, ⟨insertKey st.cache (cacheKey p hint) v⟩, false)
        | none =>
          match db p with
          | Except.error _ => (none, st, true)
          | Except.ok [] => (none, st, true)
          | Except.ok (k0 :: _) => (some k0, ⟨insertKey st.cache (cacheKey p hint) k0⟩, true) := rfl

/-- C1: `batch_process_histories` keeps exactly the conversation ids whose
entry in the turn mapping is present and non-empty, contributes exactly
one `ConversationResult` per kept id, in the order the ids were given
(the filter–map characterization), and every kept id's result — produced
by total per-conversation processing, in particular also when the
extraction oracle yields an empty rule list — appears in the output, so
no conversation prevents later ones from being processed. -/
theorem batch_process_skips_empty_and_keeps_order
    (mem : Option MemEnv) (llm : String → List String) (template userId : String)
    (messagesById : String → Option (List Msg)) (ids : List String) :
    batchProcessHistories mem llm template userId messagesById ids =
      (ids.filter fun chatId => !((messagesById chatId).getD []).isEmpty).map
        (fun chatId =>
          (processChatHistory mem llm template chatId
            ((messagesById chatId).getD []) userId).1) ∧
    ∀ chatId ∈ ids, ((messagesById chatId).getD []) ≠ [] →
      (processChatHistory mem llm template chatId
        ((messagesById chatId).getD []) userId).1 ∈
        batchProcessHistories mem llm template userId messagesById ids := by
  constructor
  · induction ids with
    | nil => rfl
    | cons chatId rest ih =>
      cases h : ((messagesById chatId).getD []).isEmpty with
      | true => simp [batchProcessHistories, h, ih]
      | false => simp [batchProcessHistories, h, ih]
  · intro chatId hmem hne
    induction ids with
    | nil => simp at hmem
    | cons x rest ih =>
      rcases List.mem_cons.mp hmem with hx | hx
      · subst hx
        have hfalse : ((messagesById chatId).getD []).isEmpty = false := by
          cases hh : (messagesById chatId).getD [] with
          | nil => exact absurd hh hne
          | cons a l => rfl
        simp [batchProcessHistories, hfalse]
      · cases hxe : ((messagesById x).getD []).isEmpty with
        | true => simpa [batchProcessHistories, hxe] using ih hx
        | false =>
          simp only [batchProcessHistories, hxe, Bool.false_eq_true, if_false,
            List.mem_cons]
          exact Or.inr (ih hx)

/-- Witness for C1 at the spec's batch example: ids `["a", "b"]` where
`"b"` maps to an empty turn list; conversation `"a"` contributes its
result. -/
theorem batch_process_skips_empty_and_keeps_order_witness :
    (processChatHistory none llmSilent "" "a" ((demoMessagesById "a").getD []) "u").1 ∈
      batchProcessHistories none llmSilent "" "u" demoMessagesById ["a", "b"] :=
  (batch_process_skips_empty_and_keeps_order none llmSilent "" "u"
    demoMessagesById ["a", "b"]).2 "a" (by decide) (by decide)

/-- C2: the extraction caller's response parsing never raises on malformed
model output.  The embedded parse stage is a total function into rule
lists: a response with no content blocks is handled as the literal `"[]"`
and yields the empty list, a fence-stripped text on which `json.loads`
raises (`jsonParse` returns `none`) yields the empty list, and a text that
parses to a non-array JSON value yields the empty list. -/
theorem extract_rules_never_raises :
    parseLlmRules [] = [] ∧
    (∀ (b : String) (rest : List String), jsonParse (stripFences b) = none →
      parseLlmRules (b :: rest) = []) ∧
    (∀ (b : String) (rest : List String) (j : Json),
      jsonParse (stripFences b) = some j → (∀ elts, j ≠ Json.arr elts) →
      parseLlmRules (b :: rest) = []) := by
  refine ⟨rfl, ?_, ?_⟩
  · intro b rest h
    simp [parseLlmRules, h]
  · intro b rest j h hj
    cases j with
    | arr elts => exact absurd rfl (hj elts)
    | null => simp [parseLlmRules, h]
    | bool v => simp [parseLlmRules, h]
    | num m s => simp [parseLlmRules, h]
    | str s => simp [parseLlmRules, h]
    | obj fields => simp [parseLlmRules, h]

/-- Witness for C2: the unparsable text `not json` and the non-array JSON
text `{}` both yield the empty rule list. -/
theorem extract_rules_never_raises_witness :
    parseLlmRules ["not json"] = [] ∧ parseLlmRules ["\x7b\x7d"] = [] :=
  ⟨extract_rules_never_raises.2.1 "not json" [] (by rfl),
    extract_rules_never_raises.2.2 "\x7b\x7d" [] (Json.obj []) (by rfl)
      (fun _ h => Json.noConfusion h)⟩

/-- C3: fence stripping trims, removes exactly the opener ```` ```json ````
(the tagged form) or ```` ``` ```` (the untagged form) when present,
removes exactly the closer ```` ``` ```` when present, and trims again;
and on the spec's two examples, the fenced JSON array parses to the
one-element sequence with exactly the stated field values (`0.9` being
the decimal `num 9 1`), while `not json` yields the empty list without
raising. -/
theorem fence_stripping_and_examples :
    (∀ s : String,
      (pyStartsWith (pyStrip s) "```json" = true →
        stripFences s =
          pyStrip (if pyEndsWith (pyDrop (pyStrip s) 7) "```"
            then pyDropRight (pyDrop (pyStrip s) 7) 3 else pyDrop (pyStrip s) 7)) ∧
      (pyStartsWith (pyStrip s) "```json" = false →
        pyStartsWith (pyStrip s) "```" = true →
        stripFences s =
          pyStrip (if pyEndsWith (pyDrop (pyStrip s) 3) "```"
            then pyDropRight (pyDrop (pyStrip s) 3) 3 else pyDrop (pyStrip s) 3)) ∧
      (pyStartsWith (pyStrip s) "```json" = false →
        pyStartsWith (pyStrip s) "```" = false →
        stripFences s =
          pyStrip (if pyEndsWith (pyStrip s) "```"
            then pyDropRight (pyStrip s) 3 else pyStrip s))) ∧
    parseLlmRules
        ["```json\n[\x7b\"rule_text\":\"x\",\"category\":\"testing\",\"confidence\":0.9,\"evidence\":\"e\"\x7d]\n```"] =
      [Json.obj [("rule_text", Json.str "x"), ("category", Json.str "testing"),
        ("confidence", Json.num 9 1), ("evidence", Json.str "e")]] ∧
    parseLlmRules ["not json"] = [] := by
  refine ⟨?_, rfl, rfl⟩
  intro s
  refine ⟨?_, ?_, ?_⟩
  · intro h1
    simp [stripFences, h1]
  · intro h1 h2
    simp [stripFences, h1, h2]
  · intro h1 h2
    simp [stripFences, h1, h2]

/-- Witness for C3's conditional stripping clauses at a concrete fenced
input. -/
theorem fence_stripping_and_examples_witness :
    stripFences "```json\n[1]\n```" = "[1]" := by
  have h := (fence_stripping_and_examples.1 "```json\n[1]\n```").1 (by rfl)
  exact h.trans (by rfl)

/-- C4 counterexample: a turn whose only text is a single space.  Its
resolved text is empty after trimming, so the claim says it is dropped,
but the code's truthiness test (`if content:`) sees a non-empty string and
keeps the turn. -/
theorem transform_messages_trim_counterexample :
    transformMessagesForMem0 [⟨none, some " ", none⟩] = [⟨"user", " "⟩] ∧
    transformMessagesForMem0Spec [⟨none, some " ", none⟩] = [] ∧
    transformMessagesForMem0 [⟨none, some " ", none⟩] ≠
      transformMessagesForMem0Spec [⟨none, some " ", none⟩] :=
  ⟨rfl, rfl, by decide⟩

/-- C4 (amended): normalization resolves each turn's text as the `content`
field when present and non-empty, else the `display` field when present,
else the empty string; it drops exactly the turns whose resolved text is
empty (no trimming is applied); and it keeps the rest, with the role
defaulted to `"user"`, in their original relative order — the filterMap
characterization. -/
theorem transform_messages_amended (msgs : List Msg) :
    transformMessagesForMem0 msgs =
      msgs.filterMap fun m =>
        if resolveContent m = "" then none
        else some ⟨m.role.getD "user", resolveContent m⟩ := by
  induction msgs with
  | nil => rfl
  | cons m ms ih =>
    by_cases h : resolveContent m = "" <;>
      simp [transformMessagesForMem0, List.filterMap_cons, h, ih]

/-- C5 counterexample: a turn with no role field is rendered with the
default `"unknown"` (upper-cased `UNKNOWN`), not the claimed `"user"`;
and a turn that normalization would drop (no text at all) still gets its
own line, so the rendering is per raw turn, not per kept turn. -/
theorem format_conversation_counterexample :
    formatConversation [⟨none, some "hi", none⟩] = "UNKNOWN: hi" ∧
    formatConversationSpec [⟨none, some "hi", none⟩] = "USER: hi" ∧
    formatConversation [⟨none, some "hi", none⟩] ≠
      formatConversationSpec [⟨none, some "hi", none⟩] ∧
    formatConversation [⟨some "user", none, none⟩] = "USER: " ∧
    formatConversationSpec [⟨some "user", none, none⟩] = "" :=
  ⟨rfl, rfl, by decide, rfl, rfl⟩

/-- C5 (amended): the rendering produces one line per raw turn — kept or
not — of the form `"{ROLE}: {text}"`, the role upper-cased and defaulting
to `"unknown"` when absent, the text resolved as content-then-display-
then-empty, with consecutive lines separated by a blank line. -/
theorem format_conversation_amended (msgs : List Msg) :
    formatConversation msgs =
      joinSep "\n\n"
        (msgs.map fun m => pyUpper (m.role.getD "unknown") ++ ": " ++ resolveContent m) := by
  unfold formatConversation
  congr 1
  induction msgs with
  | nil => rfl
  | cons m ms ih => simp [formatLines, formatLine, ih]

/-- C8 counterexample: one search result whose memory text contains a
newline.  The claim predicts exactly one line for one result, but the
rendered string `1. a\nb` has two lines. -/
theorem format_memories_multiline_counterexample :
    strLines (formatMemories ⟨some [⟨some "a\nb"⟩]⟩) = ["1. a", "b"] ∧
    (strLines (formatMemories ⟨some [⟨some "a\nb"⟩]⟩)).length ≠
      [(⟨some "a\nb"⟩ : Mem0Item)].length :=
  ⟨rfl, by decide⟩

/-- C8 (amended): on an empty result sequence (and on a response without a
result sequence) the formatter returns exactly `"No similar memories
found."`; and on `N ≥ 1` results whose memory texts are newline-free the
output has exactly `N` lines, line `i` (1-indexed) being the decimal of
`i`, a period and a space, then the i-th result's memory text. -/
theorem format_memories_amended :
    formatMemories ⟨some []⟩ = "No similar memories found." ∧
    formatMemories ⟨none⟩ = "No similar memories found." ∧
    ∀ items : List Mem0Item, items ≠ [] →
      (∀ it ∈ items, '\n' ∉ (it.memory.getD "").data) →
      strLines (formatMemories ⟨some items⟩) = numberMemories 1 items ∧
      (strLines (formatMemories ⟨some items⟩)).length = items.length ∧
      ∀ (i : Nat) (it : Mem0Item), items.get? i = some it →
        (strLines (formatMemories ⟨some items⟩)).get? i =
          some (natRepr (i + 1) ++ ". " ++ it.memory.getD "") := by
  refine ⟨rfl, rfl, ?_⟩
  intro items hne hnl
  have hlinesne : numberMemories 1 items ≠ [] := by
    intro h
    have hlen := numberMemories_length 1 items
    rw [h] at hlen
    exact hne (List.length_eq_zero.mp hlen.symm)
  have hfm : formatMemories ⟨some items⟩ = joinSep "\n" (numberMemories 1 items) := by
    simp [formatMemories, hlinesne]
  have hsl : strLines (formatMemories ⟨some items⟩) = numberMemories 1 items := by
    rw [hfm]
    exact strLines_joinSep _ hlinesne (numberMemories_no_nl 1 items hnl)
  refine ⟨hsl, ?_, ?_⟩
  · rw [hsl]
    exact numberMemories_length 1 items
  · intro i it hi
    rw [hsl]
    have h := numberMemories_get? 1 items i it hi
    rwa [Nat.add_comm 1 i] at h

/-- Witness for C8 (amended) at a single newline-free result. -/
theorem format_memories_amended_witness :
    (strLines (formatMemories ⟨some [⟨some "use pnpm"⟩]⟩)).length = 1 :=
  (format_memories_amended.2.2 [⟨some "use pnpm"⟩] (by decide) (by decide)).2.1

/-- C9: `similar_memory_count` equals the length of the result sequence of
the mem0 search response observed for the conversation
(`len(similar_memories.get("results", []))`); and with the memory gateway
disabled the count is `0` for every conversation and no gateway call —
neither `memory.add` nor `memory.search` — is made. -/
theorem similar_memory_count_invariant :
    (∀ (envM : MemEnv) (llm : String → List String) (template chatId : String)
        (msgs : List Msg) (userId : String),
      (processChatHistory (some envM) llm template chatId msgs userId).1.similar_memory_count =
        (envM.searchResp.results.getD []).length) ∧
    (∀ (llm : String → List String) (template chatId : String)
        (msgs : List Msg) (userId : String),
      (processChatHistory none llm template chatId msgs userId).1.similar_memory_count = 0 ∧
      (processChatHistory none llm template chatId msgs userId).2 = []) :=
  ⟨fun _ _ _ _ _ _ => rfl, fun _ _ _ _ _ => ⟨rfl, rfl⟩⟩

/-- C6: credential resolution is idempotent under caching.  Whenever a
call to `get_api_key` returns a value, that value is in the cache under
the call's `(provider, hint)` cache key afterwards — including when it was
sourced from the datastore — and an identical second call against the
resulting state returns the identical value, leaves the state unchanged,
and does not query the datastore. -/
theorem get_api_key_idempotent_cached (env : EnvSource) (db : DbSource)
    (provider : String) (hint : Option String) (st : KeyCache) (v : String)
    (h : (getApiKey env db provider hint st).1 = some v) :
    lookupKey (getApiKey env db provider hint st).2.1.cache (cacheKey provider hint) =
      some v ∧
    getApiKey env db provider hint (getApiKey env db provider hint st).2.1 =
      (some v, (getApiKey env db provider hint st).2.1, false) := by
  have hins : lookupKey (getApiKey env db provider hint st).2.1.cache
      (cacheKey provider hint) = some v := by
    rw [getApiKey_eq] at h ⊢
    cases hc : lookupKey st.cache (cacheKey provider hint) with
    | some w =>
      rw [hc] at h
      simp only [Option.some.injEq] at h
      subst h
      simpa using hc
    | none =>
      rw [hc] at h
      cases he : envLookup env hint with
      | some w =>
        rw [he] at h
        simp only [Option.some.injEq] at h
        subst h
        simp [insertKey, lookupKey]
      | none =>
        rw [he] at h
        cases hd : db provider with
        | error e =>
          rw [hd] at h
          simp at h
        | ok rows =>
          cases rows with
          | nil =>
            rw [hd] at h
            simp at h
          | cons k0 r =>
            rw [hd] at h
            simp only [Option.some.injEq] at h
            subst h
            simp [insertKey, lookupKey]
  refine ⟨hins, ?_⟩
  rw [getApiKey_eq, hins]

/-- Witness for C6: a resolution from the environment hint, followed by a
cache hit. -/
theorem get_api_key_idempotent_cached_witness :
    lookupKey (getApiKey envTest dbNoRows "anthropic" (some "ANTHROPIC_API_KEY") ⟨[]⟩).2.1.cache
      (cacheKey "anthropic" (some "ANTHROPIC_API_KEY")) = some "sk-env" ∧
    getApiKey envTest dbNoRows "anthropic" (some "ANTHROPIC_API_KEY")
        (getApiKey envTest dbNoRows "anthropic" (some "ANTHROPIC_API_KEY") ⟨[]⟩).2.1 =
      (some "sk-env",
        (getApiKey envTest dbNoRows "anthropic" (some "ANTHROPIC_API_KEY") ⟨[]⟩).2.1,
        false) :=
  get_api_key_idempotent_cached envTest dbNoRows "anthropic"
    (some "ANTHROPIC_API_KEY") ⟨[]⟩ "sk-env" (by rfl)

/-- C7: on a cold cache key, when the environment hint yields no non-empty
value and the datastore query yields no row — or the datastore query
raises, which the code catches — `get_api_key` returns absence (`none`)
rather than propagating an error, and leaves the cache unchanged. -/
theorem get_api_key_absence (env : EnvSource) (db : DbSource)
    (provider : String) (hint : Option String) (st : KeyCache)
    (hc : lookupKey st.cache (cacheKey provider hint) = none)
    (he : envLookup env hint = none)
    (hd : db provider = Except.ok [] ∨ db provider = Except.error ()) :
    (getApiKey env db provider hint st).1 = none ∧
    (getApiKey env db provider hint st).2.1 = st := by
  rw [getApiKey_eq, hc, he]
  rcases hd with h | h <;> rw [h] <;> exact ⟨rfl, rfl⟩

/-- Witness for C7: a provider with no environment value and either an
empty datastore answer or a datastore transport failure. -/
theorem get_api_key_absence_witness :
    (getApiKey envUnset dbNoRows "openai" (some "OPENAI_API_KEY") ⟨[]⟩).1 = none ∧
    (getApiKey envUnset dbDown "openai" (some "OPENAI_API_KEY") ⟨[]⟩).1 = none :=
  ⟨(get_api_key_absence envUnset dbNoRows "openai" (some "OPENAI_API_KEY") ⟨[]⟩
      rfl rfl (Or.inl rfl)).1,
    (get_api_key_absence envUnset dbDown "openai" (some "OPENAI_API_KEY") ⟨[]⟩
      rfl rfl (Or.inr rfl)).1⟩

/-- C10 counterexample: with the datastore returning an active row whose
`api_key` column holds the empty string, resolution succeeds with `""`
and caches it, so the cache can contain an empty credential value —
refuting the claim's clause that the cache only ever holds non-empty
values. -/
theorem get_api_key_caches_empty_value_counterexample :
    (getApiKey envUnset dbEmptyKeyRow "anthropic" (some "ANTHROPIC_API_KEY") ⟨[]⟩).1 =
      some "" ∧
    lookupKey
      (getApiKey envUnset dbEmptyKeyRow "anthropic" (some "ANTHROPIC_API_KEY") ⟨[]⟩).2.1.cache
      (cacheKey "anthropic" (some "ANTHROPIC_API_KEY")) = some "" :=
  ⟨rfl, rfl⟩

/-- C10 (amended): a call returning absence never caches a negative
result — it leaves the cache unchanged and did query the datastore, and an
identical subsequent call against the resulting state queries the
datastore again.  (Values that DO enter the cache come only from
successful resolutions; an environment-sourced value is necessarily
non-empty, but a datastore-sourced value is cached even when empty.) -/
theorem get_api_key_no_negative_caching (env : EnvSource) (db : DbSource)
    (provider : String) (hint : Option String) (st : KeyCache)
    (h : (getApiKey env db provider hint st).1 = none) :
    (getApiKey env db provider hint st).2.1 = st ∧
    (getApiKey env db provider hint st).2.2 = true ∧
    (getApiKey env db provider hint (getApiKey env db provider hint st).2.1).2.2 = true := by
  have h1 : (getApiKey env db provider hint st).2.1 = st ∧
      (getApiKey env db provider hint st).2.2 = true := by
    rw [getApiKey_eq] at h ⊢
    cases hc : lookupKey st.cache (cacheKey provider hint) with
    | some w =>
      rw [hc] at h
      simp at h
    | none =>
      rw [hc] at h
      cases he : envLookup env hint with
      | some w =>
        rw [he] at h
        simp at h
      | none =>
        rw [he] at h
        cases hd : db provider with
        | error e => exact ⟨rfl, rfl⟩
        | ok rows =>
          cases rows with
          | nil => exact ⟨rfl, rfl⟩
          | cons k0 r =>
            rw [hd] at h
            simp at h
  refine ⟨h1.1, h1.2, ?_⟩
  rw [h1.1]
  exact h1.2

/-- Witness for C10 (amended): a failed resolution against an empty
datastore leaves the empty cache empty and re-queries on the next call. -/
theorem get_api_key_no_negative_caching_witness :
    (getApiKey envUnset dbNoRows "mem0" (some "MEM0_API_KEY") ⟨[]⟩).2.1 =
      (⟨[]⟩ : KeyCache) ∧
    (getApiKey envUnset dbNoRows "mem0" (some "MEM0_API_KEY") ⟨[]⟩).2.2 = true ∧
    (getApiKey envUnset dbNoRows "mem0" (some "MEM0_API_KEY")
      (getApiKey envUnset dbNoRows "mem0" (some "MEM0_API_KEY") ⟨[]⟩).2.1).2.2 = true :=
  get_api_key_no_negative_caching envUnset dbNoRows "mem0" (some "MEM0_API_KEY") ⟨[]⟩
    (by rfl)

end AgentBase
